import Mathlib

/-!
Shallow embedding of the core of `markdowngg` (a zero-knowledge markdown
sharing service): the in-memory rate limiter (`src/lib/rate-limit.ts`),
the client crypto wrappers (`src/lib/crypto.ts`), the URL-fragment
capability codec (`src/app/page.tsx`), and the document HTTP handlers
(`src/app/api/documents/route.ts` and `src/app/api/documents/[id]/route.ts`).

JavaScript numbers used here (timestamps, counters, lengths) stay within
the 53-bit safe-integer range in all reachable states, so they are
modelled as `Nat`.  Byte buffers (`Uint8Array`/`ArrayBuffer`) are
modelled as `List Nat` with every element `< 256`.
-/

namespace MarkdownGG

/-! ## Rate limiter (`src/lib/rate-limit.ts`) -/

/-- `RateLimitConfig` from `rate-limit.ts`: window length in milliseconds
and maximum admitted requests per window. -/
structure RateLimitConfig where
  interval : Nat
  maxRequests : Nat
  deriving Repr, DecidableEq

/-- `RequestLog` from `rate-limit.ts`: the per-key fixed-window counter. -/
structure RequestLog where
  count : Nat
  resetTime : Nat
  deriving Repr, DecidableEq

/-- The module-level `requestLog : Map<string, RequestLog>`, modelled as a
total function from keys to optional entries. -/
def RLState : Type := String → Option RequestLog

/-- The result record returned by `checkRateLimit`. -/
structure RateLimitResult where
  success : Bool
  limit : Nat
  remaining : Nat
  reset : Nat
  deriving Repr, DecidableEq

/-- `RATE_LIMITS.CREATE_DOCUMENT`: 10 documents per hour per IP. -/
def CREATE_DOCUMENT : RateLimitConfig := { interval := 60 * 60 * 1000, maxRequests := 10 }

/-- `RATE_LIMITS.UPDATE_DOCUMENT`: 30 updates per hour per document. -/
def UPDATE_DOCUMENT : RateLimitConfig := { interval := 60 * 60 * 1000, maxRequests := 30 }

/-- `RATE_LIMITS.GET_DOCUMENT`: 100 views per hour per IP. -/
def GET_DOCUMENT : RateLimitConfig := { interval := 60 * 60 * 1000, maxRequests := 100 }

/-- `checkRateLimit(identifier, endpoint, config)` from `rate-limit.ts`,
with the mutable map and `Date.now()` passed explicitly.  The key is
`identifier + ":" + endpoint`; a missing or expired (`resetTime <= now`)
entry is replaced by a fresh window `count := 0, resetTime := now + interval`;
the count is then incremented and the call succeeds iff the post-increment
count is at most `maxRequests`.  `remaining` is `Math.max(0, maxRequests - count)`,
which truncated `Nat` subtraction gives directly. -/
def checkRateLimit (identifier endpoint : String) (config : RateLimitConfig)
    (st : RLState) (now : Nat) : RateLimitResult × RLState :=
  let key := identifier ++ ":" ++ endpoint
  let log1 : RequestLog :=
    match st key with
    | none => { count := 0, resetTime := now + config.interval }
    | some l =>
      if l.resetTime ≤ now then { count := 0, resetTime := now + config.interval } else l
  let log2 : RequestLog := { log1 with count := log1.count + 1 }
  ({ success := log2.count ≤ config.maxRequests
     limit := config.maxRequests
     remaining := config.maxRequests - log2.count
     reset := log2.resetTime },
   fun k => if k = key then some log2 else st k)

/-- Run `checkRateLimit` for one fixed key at each timestamp in the list,
threading the store, and collect the `success` flags in call order. -/
def rlRun (identifier endpoint : String) (config : RateLimitConfig)
    (st : RLState) : List Nat → RLState × List Bool
  | [] => (st, [])
  | now :: rest =>
    let (r, st') := checkRateLimit identifier endpoint config st now
    let (stFin, flags) := rlRun identifier endpoint config st' rest
    (stFin, r.success :: flags)

/-- Request headers seen by `getClientIp`; `none` models a header that is
absent from the request (`headers.get` returning `null`). -/
structure IpHeaders where
  xForwardedFor : Option String
  xRealIp : Option String

/-- JavaScript `s.split(sep)` for a one-character separator, on the
character list of the string.  `"".split(c)` is `[""]`, and separators at
the ends produce empty segments, exactly as in JS. -/
def jsSplitChar (c : Char) : List Char → List (List Char)
  | [] => [[]]
  | a :: rest =>
    if a = c then [] :: jsSplitChar c rest
    else
      match jsSplitChar c rest with
      | [] => [[a]]
      | h :: t => (a :: h) :: t

/-- JavaScript `s.trim()`: strip whitespace from both ends. -/
def jsTrim (s : String) : String :=
  String.mk (((s.data.dropWhile Char.isWhitespace).reverse.dropWhile Char.isWhitespace).reverse)

/-- `getClientIp(request)` from `rate-limit.ts`: the first comma-separated
entry of `x-forwarded-for`, trimmed, when that header is truthy (present
and non-empty); else the trimmed `x-real-ip` when truthy; else
`"unknown"`. -/
def getClientIp (h : IpHeaders) : String :=
  match h.xForwardedFor with
  | some fwd =>
    if fwd ≠ "" then
      jsTrim (String.mk ((jsSplitChar ',' fwd.data).headD []))
    else
      match h.xRealIp with
      | some real => if real ≠ "" then jsTrim real else "unknown"
      | none => "unknown"
  | none =>
    match h.xRealIp with
    | some real => if real ≠ "" then jsTrim real else "unknown"
    | none => "unknown"

/-! ## Document store and HTTP handlers
(`src/db/schema.ts`, `src/app/api/documents/route.ts`,
`src/app/api/documents/[id]/route.ts`) -/

/-- The persisted `Document` row (`src/db/schema.ts`): `writeTokenHash` is
nullable, `createdAt` is a timestamp in milliseconds. -/
structure Document where
  id : String
  encryptedContent : String
  writeTokenHash : Option String
  createdAt : Nat
  deriving Repr, DecidableEq

/-- The `documents` table, keyed by primary key `id`. -/
def Store : Type := String → Option Document

/-- The JSON value found at the `encryptedContent` field of a request
body: absent-or-falsy (`undefined`, `null`, `false`, `0`), a truthy
non-string, or a string.  The handlers reject the first two via
`!encryptedContent || typeof encryptedContent !== "string"`, which also
rejects the empty string (falsy). -/
inductive ContentField where
  | missing
  | nonString
  | str (s : String)
  deriving Repr, DecidableEq

/-- Body of `POST /api/documents`.  The handler destructures only
`encryptedContent`; a `writeTokenHash` field supplied by the client
(as `handleShare` in `page.tsx` does) is carried here to show that the
handler ignores it. -/
structure PostBody where
  encryptedContent : ContentField
  writeTokenHash : Option String
  deriving Repr, DecidableEq

/-- Body of `PUT /api/documents/[id]`.  The handler destructures only
`encryptedContent`; the `writeToken` field sent by `handleSave` in
`page.tsx` is carried here to show that the handler never reads it. -/
structure PutBody where
  encryptedContent : ContentField
  writeToken : Option String
  deriving Repr, DecidableEq

/-- HTTP outcome of the POST handler. -/
inductive PostResult where
  | rateLimited                -- 429
  | badRequest                 -- 400 "Invalid encrypted content"
  | tooLarge                   -- 413 "Document too large"
  | created (id : String)      -- 201 with the fresh id
  deriving Repr, DecidableEq

/-- HTTP outcome of the PUT handler.  There is no 401 outcome: the
handler has no authorization branch. -/
inductive PutResult where
  | idRequired                 -- 400 "Document ID is required"
  | rateLimited                -- 429
  | badRequest                 -- 400 "Invalid encrypted content"
  | tooLarge                   -- 413 "Document too large"
  | notFound                   -- 404
  | ok (id : String)           -- 200 with updated:true
  deriving Repr, DecidableEq

/-- `POST /api/documents` (`route.ts`): rate-limits by client IP on
endpoint `create_document`, validates that `encryptedContent` is a
truthy string, enforces the `1024 * 1024 * 10` length cap, then inserts
`{id, encryptedContent, createdAt}` — no `writeTokenHash` value, so the
nullable column is stored NULL.  `newId` stands for the value of
`generateId()` and `now` for `Date.now()`. -/
def POST (ip : String) (body : PostBody) (newId : String) (now : Nat)
    (rl : RLState) (store : Store) : PostResult × RLState × Store :=
  let (r, rl') := checkRateLimit ip "create_document" CREATE_DOCUMENT rl now
  if ¬ r.success then (.rateLimited, rl', store)
  else
    match body.encryptedContent with
    | .str s =>
      if s = "" then (.badRequest, rl', store)
      else if s.length > 1024 * 1024 * 10 then (.tooLarge, rl', store)
      else
        (.created newId, rl',
         fun k => if k = newId then
           some { id := newId, encryptedContent := s, writeTokenHash := none, createdAt := now }
         else store k)
    | _ => (.badRequest, rl', store)

/-- `PUT /api/documents/[id]` (`[id]/route.ts`): rejects an empty id,
rate-limits by the document id on endpoint `update_document`, validates
content exactly as POST does, returns 404 when the id is absent, and
otherwise sets `encryptedContent` on the matching row.  No token of any
kind is consulted. -/
def PUT (id : String) (body : PutBody) (now : Nat)
    (rl : RLState) (store : Store) : PutResult × RLState × Store :=
  if id = "" then (.idRequired, rl, store)
  else
    let (r, rl') := checkRateLimit id "update_document" UPDATE_DOCUMENT rl now
    if ¬ r.success then (.rateLimited, rl', store)
    else
      match body.encryptedContent with
      | .str s =>
        if s = "" then (.badRequest, rl', store)
        else if s.length > 1024 * 1024 * 10 then (.tooLarge, rl', store)
        else
          match store id with
          | none => (.notFound, rl', store)
          | some doc =>
            (.ok id, rl',
             fun k => if k = id then some { doc with encryptedContent := s } else store k)
      | _ => (.badRequest, rl', store)

/-! ## Base64 helpers (`arrayBufferToBase64` / `base64ToArrayBuffer` in
`src/lib/crypto.ts`), over the platform primitives `btoa` / `atob` -/

/-- The standard base64 alphabet used by `btoa`/`atob`. -/
def b64Alphabet : List Char :=
  "ABCDEFGHIJKLMNOPQRSTUVWXYZabcdefghijklmnopqrstuvwxyz0123456789+/".data

/-- The base64 digit for a 6-bit value. -/
def b64Char (n : Nat) : Char := b64Alphabet.getD n 'A'

/-- The 6-bit value of a base64 digit, `none` for a character outside the
alphabet. -/
def b64Index (c : Char) : Option Nat := b64Alphabet.indexOf? c

/-- `btoa` on a byte sequence (the code's binary string built with
`String.fromCharCode` is the identity embedding of bytes): standard
base64 with `=` padding, three bytes per four digits. -/
def b64EncodeBytes : List Nat → List Char
  | [] => []
  | [b1] => [b64Char (b1 / 4), b64Char (b1 % 4 * 16), '=', '=']
  | [b1, b2] => [b64Char (b1 / 4), b64Char (b1 % 4 * 16 + b2 / 16), b64Char (b2 % 16 * 4), '=']
  | b1 :: b2 :: b3 :: rest =>
    b64Char (b1 / 4) :: b64Char (b1 % 4 * 16 + b2 / 16) ::
      b64Char (b2 % 16 * 4 + b3 / 64) :: b64Char (b3 % 64) :: b64EncodeBytes rest

/-- The per-character effect of the three `.replace` calls in
`arrayBufferToBase64`: `+` to `-`, `/` to `_`, `=` removed.  The three
replaced characters are distinct, so the sequential global replaces act
independently on each character. -/
def toUrlSafe (c : Char) : Option Char :=
  if c = '+' then some '-' else if c = '/' then some '_' else if c = '=' then none else some c

/-- `arrayBufferToBase64` from `crypto.ts`: `btoa` of the byte string,
made URL-safe and unpadded. -/
def arrayBufferToBase64 (bytes : List Nat) : String :=
  String.mk ((b64EncodeBytes bytes).filterMap toUrlSafe)

/-- The per-character effect of the two `.replace` calls in
`base64ToArrayBuffer`: `-` back to `+`, `_` back to `/`. -/
def fromUrlSafe (c : Char) : Char :=
  if c = '-' then '+' else if c = '_' then '/' else c

/-- The `"=".repeat((4 - (standardBase64.length % 4)) % 4)` padding step of
`base64ToArrayBuffer`. -/
def padChars (l : List Char) : List Char :=
  l ++ List.replicate ((4 - l.length % 4) % 4) '='

/-- The trailing-`=` stripping step of forgiving-base64 (`atob`): remove
up to two trailing `=`. -/
def stripPad (l : List Char) : List Char :=
  match l.reverse with
  | '=' :: '=' :: r => r.reverse
  | '=' :: r => r.reverse
  | _ => l

/-- Reassemble bytes from 6-bit values, four digits to three bytes, a
final partial group of two or three digits contributing one or two bytes
with leftover bits discarded (forgiving-base64). -/
def b64DecodeQuads : List Nat → List Nat
  | n1 :: n2 :: n3 :: n4 :: rest =>
    (n1 * 4 + n2 / 16) :: (n2 % 16 * 16 + n3 / 4) :: (n3 % 4 * 64 + n4) :: b64DecodeQuads rest
  | [n1, n2, n3] => [n1 * 4 + n2 / 16, n2 % 16 * 16 + n3 / 4]
  | [n1, n2] => [n1 * 4 + n2 / 16]
  | _ => []

/-- `atob` (WHATWG forgiving-base64 decode, on inputs without ASCII
whitespace, which is all this code ever passes): strip up to two trailing
`=` when the length is a multiple of 4; fail when the remaining length is
`1 mod 4` or any character is outside the alphabet; otherwise decode. -/
def jsAtob (input : List Char) : Option (List Nat) :=
  let data := if input.length % 4 = 0 then stripPad input else input
  if data.length % 4 = 1 then none
  else if data.all (fun c => (b64Index c).isSome) then
    some (b64DecodeQuads (data.map (fun c => (b64Index c).getD 0)))
  else none

/-- `base64ToArrayBuffer` from `crypto.ts`: undo the URL-safe replacements,
re-pad to a multiple of four, `atob`, and read the char codes back as
bytes. -/
def base64ToArrayBuffer (s : String) : Option (List Nat) :=
  jsAtob (padChars (s.data.map fromUrlSafe))

/-- The unpadded base64 digit stream of a byte sequence: what remains of
`btoa` output once the `=` padding is stripped (proof helper). -/
def b64NoPad : List Nat → List Char
  | [] => []
  | [b1] => [b64Char (b1 / 4), b64Char (b1 % 4 * 16)]
  | [b1, b2] => [b64Char (b1 / 4), b64Char (b1 % 4 * 16 + b2 / 16), b64Char (b2 % 16 * 4)]
  | b1 :: b2 :: b3 :: rest =>
    b64Char (b1 / 4) :: b64Char (b1 % 4 * 16 + b2 / 16) ::
      b64Char (b2 % 16 * 4 + b3 / 64) :: b64Char (b3 % 64) :: b64NoPad rest

/-- The URL-safe image of one base64 digit (proof helper). -/
def urlOf (c : Char) : Char :=
  if c = '+' then '-' else if c = '/' then '_' else c

/-! ## UTF-8 (`TextEncoder` / `TextDecoder` platform primitives) -/

/-- UTF-8 encoding of one Unicode scalar value. -/
def utf8EncodeChar (c : Char) : List Nat :=
  let n := c.toNat
  if n < 128 then [n]
  else if n < 2048 then [192 + n / 64, 128 + n % 64]
  else if n < 65536 then [224 + n / 4096, 128 + n / 64 % 64, 128 + n % 64]
  else [240 + n / 262144, 128 + n / 4096 % 64, 128 + n / 64 % 64, 128 + n % 64]

/-- `new TextEncoder().encode(s)`: UTF-8 bytes of the string. -/
def utf8Encode (s : String) : List Nat :=
  (s.data.map utf8EncodeChar).flatten

/-- Streaming UTF-8 parser, the shape of `TextDecoder`'s decoder: one
byte per step, carrying the pending multi-byte state
`(continuation bytes still needed, accumulated value, minimum legal
scalar)`.  It rejects malformed leads, truncated sequences, stray or
missing continuation bytes, overlong forms, surrogates and
out-of-range values.  (`TextDecoder` substitutes U+FFFD instead of
failing; the two agree on the valid encodings, the only inputs that
reach this model.) -/
def utf8DecodeState (pending : Option (Nat × Nat × Nat)) : List Nat → Option (List Char)
  | [] =>
    match pending with
    | none => some []
    | some _ => none
  | b :: rest =>
    match pending with
    | none =>
      if b < 128 then (utf8DecodeState none rest).map (fun cs => Char.ofNat b :: cs)
      else if b < 192 then none
      else if b < 224 then utf8DecodeState (some (1, b - 192, 128)) rest
      else if b < 240 then utf8DecodeState (some (2, b - 224, 2048)) rest
      else if b < 248 then utf8DecodeState (some (3, b - 240, 65536)) rest
      else none
    | some (need, acc, lo) =>
      if 128 ≤ b ∧ b < 192 then
        if need = 1 then
          if acc * 64 + (b - 128) < lo ∨
              (55296 ≤ acc * 64 + (b - 128) ∧ acc * 64 + (b - 128) < 57344) ∨
              1114112 ≤ acc * 64 + (b - 128) then none
          else (utf8DecodeState none rest).map (fun cs => Char.ofNat (acc * 64 + (b - 128)) :: cs)
        else utf8DecodeState (some (need - 1, acc * 64 + (b - 128), lo)) rest
      else none

/-- `new TextDecoder().decode(bytes)` on well-formed input. -/
def utf8Decode (bytes : List Nat) : Option String :=
  (utf8DecodeState none bytes).map String.mk

/-! ## Encryption wrappers (`encrypt` / `decrypt` in `src/lib/crypto.ts`)

`crypto.subtle.encrypt`/`decrypt` with AES-GCM are platform primitives —
external collaborators of this code.  They are passed in as `sealFn` and
`openFn` over an abstract key type; the AEAD contract (authenticated
decryption inverts encryption and rejects unauthentic input) enters the
theorems as hypotheses. -/

/-- `IV_LENGTH` from `crypto.ts`: 96-bit IV. -/
def IV_LENGTH : Nat := 12

/-- `encrypt(plaintext, key)`: UTF-8 encode, seal under the given IV
(the code draws it from `crypto.getRandomValues`; here it is explicit),
prepend the IV to the ciphertext, base64url-encode. -/
def encrypt {K : Type} (sealFn : K → List Nat → List Nat → List Nat)
    (key : K) (iv : List Nat) (plaintext : String) : String :=
  arrayBufferToBase64 (iv ++ sealFn key iv (utf8Encode plaintext))

/-- `decrypt(ciphertext, key)`: base64url-decode, split off the fixed
12-byte IV prefix, open, UTF-8 decode.  Every failure (bad base64,
authentication failure, malformed UTF-8) is `none` — the code surfaces
these as thrown errors, `DecryptionError` in the spec's taxonomy. -/
def decrypt {K : Type} (openFn : K → List Nat → List Nat → Option (List Nat))
    (key : K) (ciphertext : String) : Option String :=
  match base64ToArrayBuffer ciphertext with
  | none => none
  | some combined =>
    match openFn key (combined.take IV_LENGTH) (combined.drop IV_LENGTH) with
    | none => none
    | some plainBytes => utf8Decode plainBytes

/-! ## URL fragment capability codec (`loadFromUrl` in `src/app/page.tsx`)

`URLSearchParams` is a platform primitive; `uspGet` models its `get` on
ASCII input (its percent-decoder merges UTF-8 continuation bytes, which
never occur in the base64url material this code parses). -/

/-- Value of a hex digit. -/
def hexVal (c : Char) : Option Nat :=
  if '0' ≤ c ∧ c ≤ '9' then some (c.toNat - 48)
  else if 'A' ≤ c ∧ c ≤ 'F' then some (c.toNat - 55)
  else if 'a' ≤ c ∧ c ≤ 'f' then some (c.toNat - 87)
  else none

/-- `application/x-www-form-urlencoded` decoding: `+` to space, `%XY` to
the coded character, anything else verbatim. -/
def percentDecode : List Char → List Char
  | [] => []
  | '+' :: rest => ' ' :: percentDecode rest
  | '%' :: a :: b :: rest =>
    match hexVal a, hexVal b with
    | some x, some y => Char.ofNat (16 * x + y) :: percentDecode rest
    | _, _ => '%' :: percentDecode (a :: b :: rest)
  | a :: rest => a :: percentDecode rest

/-- Split one query segment at its first `=`: the name before it, the
value after it (empty when there is no `=`). -/
def jsParamPair : List Char → List Char × List Char
  | [] => ([], [])
  | '=' :: rest => ([], rest)
  | a :: rest =>
    let (n, v) := jsParamPair rest
    (a :: n, v)

/-- `new URLSearchParams(qs).get(name)`: split on `&`, drop empty
segments, decode names and values, return the first value whose decoded
name matches. -/
def uspGet (name : List Char) (qs : List Char) : Option (List Char) :=
  ((jsSplitChar '&' qs).filter (· ≠ [])).findSome? fun seg =>
    let (n, v) := jsParamPair seg
    if percentDecode n = name then some (percentDecode v) else none

/-- JavaScript truthiness of `URLSearchParams.get`: `null` and the empty
string are falsy. -/
def jsTruthy : Option (List Char) → Bool
  | none => false
  | some [] => false
  | some (_ :: _) => true

/-- Fragment decoding from `loadFromUrl` (`page.tsx` lines 117–130):
`hash.split("#")` must give at least two parts; `parts[0]` is the
document id and `parts[1]` the key-and-token segment; when
`hashParams.get("write")` is truthy the key is the segment before the
first `&`, otherwise the whole segment; the token is the `get("write")`
result (`none` models `null`). -/
def decodeFragment (hash : String) : Option (String × String × Option String) :=
  match jsSplitChar '#' hash.data with
  | p0 :: p1 :: _ =>
    let w := uspGet "write".data p1
    let keyString := if jsTruthy w then (jsSplitChar '&' p1).headD [] else p1
    some (String.mk p0, String.mk keyString, w.map String.mk)
  | _ => none

/-- Fragment encoding, as built by `handleShare` / `loadDocument` in
`page.tsx`: `id#key&write=token` with a token, `id#key` without. -/
def encodeFragment (id key : String) (tok : Option String) : String :=
  match tok with
  | some t => id ++ "#" ++ key ++ "&write=" ++ t
  | none => id ++ "#" ++ key

/-! ## Helper lemmas -/

/-- A JS `split` always yields at least one segment. -/
theorem jsSplitChar_ne_nil (c : Char) (l : List Char) : jsSplitChar c l ≠ [] := by
  cases l with
  | nil => simp [jsSplitChar]
  | cons a rest =>
    simp only [jsSplitChar]
    by_cases h : a = c
    · simp [h]
    · simp only [if_neg h]
      cases jsSplitChar c rest <;> simp

/-- A separator-free list is split into a single segment. -/
theorem jsSplitChar_no_sep (c : Char) (l : List Char) (h : c ∉ l) :
    jsSplitChar c l = [l] := by
  induction l with
  | nil => rfl
  | cons a rest ih =>
    have ha : ¬ a = c := fun he => h (he ▸ List.mem_cons_self a rest)
    have hrest : c ∉ rest := fun hm => h (List.mem_cons_of_mem a hm)
    simp [jsSplitChar, ha, ih hrest]

/-- Splitting at the first separator: a separator-free prefix becomes the
first segment. -/
theorem jsSplitChar_append_sep (c : Char) (l1 l2 : List Char) (h : c ∉ l1) :
    jsSplitChar c (l1 ++ c :: l2) = l1 :: jsSplitChar c l2 := by
  induction l1 with
  | nil => simp [jsSplitChar]
  | cons a rest ih =>
    have ha : ¬ a = c := fun he => h (he ▸ List.mem_cons_self a rest)
    have hrest : c ∉ rest := fun hm => h (List.mem_cons_of_mem a hm)
    rw [List.cons_append]
    simp only [jsSplitChar, if_neg ha, ih hrest]

/-- A JS `split` yields a single segment exactly when the separator does
not occur. -/
theorem jsSplitChar_length_eq_one (c : Char) (l : List Char) :
    (jsSplitChar c l).length = 1 ↔ c ∉ l := by
  induction l with
  | nil => simp [jsSplitChar]
  | cons a rest ih =>
    by_cases ha : a = c
    · subst ha
      simp only [jsSplitChar, if_pos rfl, List.length_cons]
      cases hrec : jsSplitChar a rest with
      | nil => exact absurd hrec (jsSplitChar_ne_nil a rest)
      | cons x y => simp
    · simp only [jsSplitChar, if_neg ha]
      cases hrec : jsSplitChar c rest with
      | nil => exact absurd hrec (jsSplitChar_ne_nil c rest)
      | cons x y =>
        rw [hrec] at ih
        simp only [List.length_cons] at ih ⊢
        rw [List.mem_cons]
        constructor
        · intro h1 h2
          rcases h2 with h2 | h2
          · exact ha h2.symm
          · exact (ih.mp h1) h2
        · intro h1
          exact ih.mpr fun hm => h1 (Or.inr hm)

/-- Unfolding step: an ordinary character passes through the decoder. -/
theorem percentDecode_cons (a : Char) (rest : List Char) (ha1 : a ≠ '%') (ha2 : a ≠ '+') :
    percentDecode (a :: rest) = a :: percentDecode rest := by
  rw [percentDecode.eq_def]
  split <;> simp_all

/-- Percent-decoding is the identity on input without `%` or `+`. -/
theorem percentDecode_id (l : List Char) (hp : '%' ∉ l) (hq : '+' ∉ l) :
    percentDecode l = l := by
  induction l with
  | nil => rfl
  | cons a rest ih =>
    have ha1 : a ≠ '%' := fun he => hp (he ▸ List.mem_cons_self a rest)
    have ha2 : a ≠ '+' := fun he => hq (he ▸ List.mem_cons_self a rest)
    have h1 : '%' ∉ rest := fun hm => hp (List.mem_cons_of_mem a hm)
    have h2 : '+' ∉ rest := fun hm => hq (List.mem_cons_of_mem a hm)
    rw [percentDecode_cons a rest ha1 ha2, ih h1 h2]

/-- Unfolding step: a non-`=` character extends the name part. -/
theorem jsParamPair_cons (a : Char) (rest : List Char) (ha : a ≠ '=') :
    jsParamPair (a :: rest) = (a :: (jsParamPair rest).1, (jsParamPair rest).2) := by
  rw [jsParamPair.eq_def]
  split <;> simp_all

/-- A segment without `=` parses as a bare name with empty value. -/
theorem jsParamPair_no_eq (l : List Char) (h : '=' ∉ l) :
    jsParamPair l = (l, []) := by
  induction l with
  | nil => rfl
  | cons a rest ih =>
    have ha : a ≠ '=' := fun he => h (he ▸ List.mem_cons_self a rest)
    have hrest : '=' ∉ rest := fun hm => h (List.mem_cons_of_mem a hm)
    rw [jsParamPair_cons a rest ha, ih hrest]

/-- A segment splits at its first `=` into name and value. -/
theorem jsParamPair_append (n v : List Char) (h : '=' ∉ n) :
    jsParamPair (n ++ '=' :: v) = (n, v) := by
  induction n with
  | nil => rfl
  | cons a rest ih =>
    have ha : a ≠ '=' := fun he => h (he ▸ List.mem_cons_self a rest)
    have hrest : '=' ∉ rest := fun hm => h (List.mem_cons_of_mem a hm)
    rw [List.cons_append, jsParamPair_cons a _ ha, ih hrest]

/-- The segment of a JS `split` before the first separator is the longest
separator-free prefix. -/
theorem jsSplitChar_headD (c : Char) (l : List Char) :
    (jsSplitChar c l).headD [] = l.takeWhile (· ≠ c) := by
  induction l with
  | nil => rfl
  | cons a rest ih =>
    simp only [jsSplitChar]
    by_cases h : a = c
    · simp [h]
    · simp only [if_neg h]
      cases hrec : jsSplitChar c rest with
      | nil => exact absurd hrec (jsSplitChar_ne_nil c rest)
      | cons hd tl =>
        rw [hrec] at ih
        simp only [List.headD_cons] at ih ⊢
        simp [List.takeWhile_cons, h, ih]

/-- In a live (unexpired) window, `checkRateLimit` increments the stored
count, keeps the reset time, and admits iff the new count is within the
limit. -/
theorem checkRateLimit_live (identifier endpoint : String) (config : RateLimitConfig)
    (st : RLState) (now : Nat) (l : RequestLog)
    (hst : st (identifier ++ ":" ++ endpoint) = some l) (hlive : now < l.resetTime) :
    (checkRateLimit identifier endpoint config st now).2 (identifier ++ ":" ++ endpoint)
        = some { count := l.count + 1, resetTime := l.resetTime } ∧
    (checkRateLimit identifier endpoint config st now).1.success
        = decide (l.count + 1 ≤ config.maxRequests) := by
  simp [checkRateLimit, hst, Nat.not_le.mpr hlive]

/-- With a missing or expired window, `checkRateLimit` installs a fresh
window whose post-increment count is 1. -/
theorem checkRateLimit_reset (identifier endpoint : String) (config : RateLimitConfig)
    (st : RLState) (now : Nat)
    (hst : st (identifier ++ ":" ++ endpoint) = none ∨
      ∃ l, st (identifier ++ ":" ++ endpoint) = some l ∧ l.resetTime ≤ now) :
    (checkRateLimit identifier endpoint config st now).2 (identifier ++ ":" ++ endpoint)
        = some { count := 1, resetTime := now + config.interval } ∧
    (checkRateLimit identifier endpoint config st now).1.success
        = decide (1 ≤ config.maxRequests) := by
  rcases hst with hnone | ⟨l, hsome, hexp⟩
  · simp [checkRateLimit, hnone]
  · simp [checkRateLimit, hsome, hexp]

/-- Running the limiter through a window already holding count `c`, with
every remaining call before the reset time, admits the `i`-th remaining
call iff `c + i` stays within the limit. -/
theorem rlRun_loaded (identifier endpoint : String) (config : RateLimitConfig)
    (st : RLState) (c r : Nat) (times : List Nat)
    (hst : st (identifier ++ ":" ++ endpoint) = some { count := c, resetTime := r })
    (htimes : ∀ t ∈ times, t < r) :
    (rlRun identifier endpoint config st times).2
      = (List.range times.length).map (fun i => decide (c + i + 1 ≤ config.maxRequests)) := by
  induction times generalizing st c with
  | nil => rfl
  | cons t rest ih =>
    have ht : t < r := htimes t (List.mem_cons_self t rest)
    have hstep := checkRateLimit_live identifier endpoint config st t
      { count := c, resetTime := r } hst ht
    simp only [rlRun]
    have hrest := ih (checkRateLimit identifier endpoint config st t).2 (c + 1)
      hstep.1 (fun u hu => htimes u (List.mem_cons_of_mem t hu))
    simp only [List.length_cons, List.range_succ_eq_map, List.map_cons, List.map_map]
    rw [hrest]
    congr 1
    · simpa using hstep.2
    · apply List.map_congr_left
      intro i _
      simp only [Function.comp_apply]
      rw [decide_eq_decide]
      omega

/-! ## Claim theorems -/

/-- C1 (code bug evidence): the PUT handler performs no write-token check.
With a stored record carrying `writeTokenHash = some "h"`, an update
request supplying no `writeToken` at all still returns 200 and overwrites
the content — the spec requires `Unauthorized` (401) here, but the handler
has no such branch. -/
theorem c1_put_without_token_succeeds_despite_hash :
    (PUT "d1" { encryptedContent := .str "newct", writeToken := none } 100 (fun _ => none)
      (fun k => if k = "d1" then
        some { id := "d1", encryptedContent := "oldct", writeTokenHash := some "h", createdAt := 5 }
      else none)).1 = .ok "d1" ∧
    (PUT "d1" { encryptedContent := .str "newct", writeToken := none } 100 (fun _ => none)
      (fun k => if k = "d1" then
        some { id := "d1", encryptedContent := "oldct", writeTokenHash := some "h", createdAt := 5 }
      else none)).2.2 "d1"
      = some { id := "d1", encryptedContent := "newct", writeTokenHash := some "h", createdAt := 5 } := by
  constructor <;> rfl

/-- C2 (code bug evidence): the POST handler destructures only
`encryptedContent` from the body, so a `writeTokenHash` supplied by the
client is silently dropped and the stored record carries `none` — the
spec says the stored record carries the supplied hash. -/
theorem c2_post_drops_supplied_token_hash :
    (POST "1.2.3.4" { encryptedContent := .str "ct", writeTokenHash := some "h" } "d1" 0
      (fun _ => none) (fun _ => none)).1 = .created "d1" ∧
    (POST "1.2.3.4" { encryptedContent := .str "ct", writeTokenHash := some "h" } "d1" 0
      (fun _ => none) (fun _ => none)).2.2 "d1"
      = some { id := "d1", encryptedContent := "ct", writeTokenHash := none, createdAt := 0 } := by
  constructor <;> rfl

/-- C3: `checkRateLimit` is a fixed-window counter.  (1) On a missing or
expired window (`resetTime ≤ now`) it installs `count 0, resetTime now+interval`
and then increments, so the stored count is 1 and the call is admitted iff
`1 ≤ maxRequests`.  (2) In a live window it increments and admits iff the
post-increment count is at most `maxRequests`.  (3) Consequently, starting
fresh, a sequence of calls all inside the window is admitted exactly up to
the `maxRequests`-th call: the `k`-th call (1-based) succeeds iff
`k ≤ maxRequests`; with (1), a later call past `resetTime` starts again
from count 0. -/
theorem c3_fixed_window_counter (identifier endpoint : String) (config : RateLimitConfig) :
    (∀ (st : RLState) (now : Nat),
      (st (identifier ++ ":" ++ endpoint) = none ∨
        ∃ l, st (identifier ++ ":" ++ endpoint) = some l ∧ l.resetTime ≤ now) →
      (checkRateLimit identifier endpoint config st now).2 (identifier ++ ":" ++ endpoint)
          = some { count := 1, resetTime := now + config.interval } ∧
      (checkRateLimit identifier endpoint config st now).1.success
          = decide (1 ≤ config.maxRequests)) ∧
    (∀ (st : RLState) (now : Nat) (l : RequestLog),
      st (identifier ++ ":" ++ endpoint) = some l → now < l.resetTime →
      (checkRateLimit identifier endpoint config st now).2 (identifier ++ ":" ++ endpoint)
          = some { count := l.count + 1, resetTime := l.resetTime } ∧
      (checkRateLimit identifier endpoint config st now).1.success
          = decide (l.count + 1 ≤ config.maxRequests)) ∧
    (∀ (st : RLState) (now : Nat) (times : List Nat),
      st (identifier ++ ":" ++ endpoint) = none →
      (∀ t ∈ times, now ≤ t ∧ t < now + config.interval) →
      (rlRun identifier endpoint config st (now :: times)).2
        = (List.range (times.length + 1)).map (fun i => decide (i + 1 ≤ config.maxRequests))) := by
  refine ⟨checkRateLimit_reset identifier endpoint config, checkRateLimit_live identifier endpoint config, ?_⟩
  intro st now times hfresh htimes
  have hfirst := checkRateLimit_reset identifier endpoint config st now (Or.inl hfresh)
  simp only [rlRun]
  have hrest := rlRun_loaded identifier endpoint config
    (checkRateLimit identifier endpoint config st now).2 1 (now + config.interval) times
    hfirst.1 (fun t ht => (htimes t ht).2)
  rw [hrest]
  simp only [List.range_succ_eq_map, List.map_cons, List.map_map]
  congr 1
  · simpa using hfirst.2
  · apply List.map_congr_left
    intro i _
    simp only [Function.comp_apply]
    rw [decide_eq_decide]
    omega

/-- Witness for C3 at `maxRequests = 2`: two in-window calls are admitted
and the third is refused. -/
theorem c3_fixed_window_counter_witness :
    (rlRun "ip" "ep" { interval := 1000, maxRequests := 2 } (fun _ => none) [0, 1, 2]).2
      = [true, true, false] := by
  have h := (c3_fixed_window_counter "ip" "ep" { interval := 1000, maxRequests := 2 }).2.2
    (fun _ => none) 0 [1, 2] rfl (by decide)
  simpa using h

/-- C10: `getClientIp` yields the trimmed text before the first comma of a
truthy `x-forwarded-for` header; otherwise the trimmed truthy `x-real-ip`;
otherwise the constant `"unknown"` — in particular every request carrying
neither header is identified as `"unknown"`. -/
theorem c10_getClientIp_header_fallback (h : IpHeaders) :
    (∀ s, h.xForwardedFor = some s → s ≠ "" →
      getClientIp h = jsTrim (String.mk (s.data.takeWhile (· ≠ ',')))) ∧
    ((h.xForwardedFor = none ∨ h.xForwardedFor = some "") →
      ∀ r, h.xRealIp = some r → r ≠ "" → getClientIp h = jsTrim r) ∧
    ((h.xForwardedFor = none ∨ h.xForwardedFor = some "") →
      (h.xRealIp = none ∨ h.xRealIp = some "") → getClientIp h = "unknown") := by
  obtain ⟨xf, xr⟩ := h
  refine ⟨?_, ?_, ?_⟩
  · intro s hs hne
    subst hs
    simp only [getClientIp, if_pos hne]
    rw [jsSplitChar_headD]
  · rintro (hnone | hempty) r hr hne <;> subst hr
    · subst hnone
      simp [getClientIp, hne]
    · subst hempty
      simp [getClientIp, hne]
  · rintro (hnone | hempty) hreal
    · subst hnone
      rcases hreal with h1 | h1 <;> subst h1 <;> simp [getClientIp]
    · subst hempty
      rcases hreal with h1 | h1 <;> subst h1 <;> simp [getClientIp]

/-- Witness for C10: a forwarded-for list yields its first trimmed entry;
no headers at all yield `"unknown"`. -/
theorem c10_getClientIp_header_fallback_witness :
    getClientIp { xForwardedFor := some " 1.2.3.4 , 5.6.7.8", xRealIp := none } = "1.2.3.4" ∧
    getClientIp { xForwardedFor := none, xRealIp := none } = "unknown" := by
  constructor
  · have h := (c10_getClientIp_header_fallback
      { xForwardedFor := some " 1.2.3.4 , 5.6.7.8", xRealIp := none }).1
      " 1.2.3.4 , 5.6.7.8" rfl (by decide)
    rw [h]
    rfl
  · exact (c10_getClientIp_header_fallback
      { xForwardedFor := none, xRealIp := none }).2.2 (Or.inl rfl) (Or.inl rfl)

/-- C4: content validation on create and update, for requests that pass
the preceding rate-limit (and, for PUT, non-empty-id) checks: missing,
non-string, or empty content is rejected with 400; content longer than
`10 * 1024 * 1024` is rejected with 413; content at or below that limit
proceeds — to a 201 on create, and on update to the existence check
(404 when absent, 200 otherwise). -/
theorem c4_content_validation (ip id newId : String) (now : Nat)
    (rl : RLState) (store : Store) :
    ((checkRateLimit ip "create_document" CREATE_DOCUMENT rl now).1.success = true →
      (∀ wth, (POST ip { encryptedContent := .missing, writeTokenHash := wth } newId now rl store).1
          = .badRequest) ∧
      (∀ wth, (POST ip { encryptedContent := .nonString, writeTokenHash := wth } newId now rl store).1
          = .badRequest) ∧
      (∀ wth, (POST ip { encryptedContent := .str "", writeTokenHash := wth } newId now rl store).1
          = .badRequest) ∧
      (∀ wth s, 10 * 1024 * 1024 < s.length →
        (POST ip { encryptedContent := .str s, writeTokenHash := wth } newId now rl store).1
          = .tooLarge) ∧
      (∀ wth s, s ≠ "" → s.length ≤ 10 * 1024 * 1024 →
        (POST ip { encryptedContent := .str s, writeTokenHash := wth } newId now rl store).1
          = .created newId)) ∧
    (id ≠ "" →
      (checkRateLimit id "update_document" UPDATE_DOCUMENT rl now).1.success = true →
      (∀ wt, (PUT id { encryptedContent := .missing, writeToken := wt } now rl store).1
          = .badRequest) ∧
      (∀ wt, (PUT id { encryptedContent := .nonString, writeToken := wt } now rl store).1
          = .badRequest) ∧
      (∀ wt, (PUT id { encryptedContent := .str "", writeToken := wt } now rl store).1
          = .badRequest) ∧
      (∀ wt s, 10 * 1024 * 1024 < s.length →
        (PUT id { encryptedContent := .str s, writeToken := wt } now rl store).1
          = .tooLarge) ∧
      (∀ wt s, s ≠ "" → s.length ≤ 10 * 1024 * 1024 →
        (PUT id { encryptedContent := .str s, writeToken := wt } now rl store).1
          = (match store id with
             | none => .notFound
             | some _ => .ok id))) := by
  constructor
  · intro hrl
    refine ⟨fun wth => by simp [POST, hrl], fun wth => by simp [POST, hrl],
      fun wth => by simp [POST, hrl], ?_, ?_⟩
    · intro wth s hs
      have hne : ¬ s = "" := by intro he; subst he; simp at hs
      simp [POST, hrl, hne, hs]
    · intro wth s hne hle
      simp [POST, hrl, hne, Nat.not_lt.mpr hle]
  · intro hid hrl
    refine ⟨fun wt => by simp [PUT, hid, hrl], fun wt => by simp [PUT, hid, hrl],
      fun wt => by simp [PUT, hid, hrl], ?_, ?_⟩
    · intro wt s hs
      have hne : ¬ s = "" := by intro he; subst he; simp at hs
      simp [PUT, hid, hrl, hne, hs]
    · intro wt s hne hle
      cases hst : store id <;>
        simp [PUT, hid, hrl, hne, Nat.not_lt.mpr hle, hst]

/-- Witness for C4: an in-limit create succeeds with 201 and an oversized
update is refused with 413. -/
theorem c4_content_validation_witness :
    (POST "1.2.3.4" { encryptedContent := .str "blob", writeTokenHash := none } "d9" 7
      (fun _ => none) (fun _ => none)).1 = .created "d9" ∧
    (PUT "d9" { encryptedContent := .missing, writeToken := none } 7
      (fun _ => none) (fun _ => none)).1 = .badRequest := by
  have h := c4_content_validation "1.2.3.4" "d9" "d9" 7 (fun _ => none) (fun _ => none)
  exact ⟨(h.1 rfl).2.2.2.2 none "blob" (by decide) (by decide),
    (h.2 (by decide) rfl).1 none⟩

/-- C9: a successful update rewrites only `encryptedContent` of the
addressed record — `id`, `createdAt` and `writeTokenHash` keep their
prior values and every other key of the store is untouched — and an
update addressing an absent id never succeeds, leaves the store
unchanged, and (when the earlier id/rate/content checks pass) reports
404. -/
theorem c9_update_frame (id : String) (body : PutBody) (now : Nat)
    (rl : RLState) (store : Store) :
    (∀ rid, (PUT id body now rl store).1 = .ok rid →
      (∀ k, k ≠ id → (PUT id body now rl store).2.2 k = store k) ∧
      (∃ doc s, store id = some doc ∧ body.encryptedContent = .str s ∧
        (PUT id body now rl store).2.2 id
          = some { id := doc.id, encryptedContent := s,
                   writeTokenHash := doc.writeTokenHash, createdAt := doc.createdAt })) ∧
    (store id = none →
      (∀ rid, (PUT id body now rl store).1 ≠ .ok rid) ∧
      (PUT id body now rl store).2.2 = store ∧
      (id ≠ "" →
        (checkRateLimit id "update_document" UPDATE_DOCUMENT rl now).1.success = true →
        ∀ s, body.encryptedContent = .str s → s ≠ "" → s.length ≤ 1024 * 1024 * 10 →
        (PUT id body now rl store).1 = .notFound)) := by
  constructor
  · intro rid hok
    by_cases hid : id = ""
    · simp [PUT, hid] at hok
    · simp only [PUT, if_neg hid] at hok ⊢
      by_cases hrl : (checkRateLimit id "update_document" UPDATE_DOCUMENT rl now).1.success
      · have hcond : ¬¬((checkRateLimit id "update_document" UPDATE_DOCUMENT rl now).1.success = true) := by
          simp [hrl]
        rw [if_neg hcond] at hok ⊢
        cases hbody : body.encryptedContent with
        | str s =>
          simp only [hbody] at hok ⊢
          by_cases hne : s = ""
          · simp [hne] at hok
          · simp only [if_neg hne] at hok ⊢
            by_cases hlen : s.length > 1024 * 1024 * 10
            · simp [hlen] at hok
            · simp only [if_neg hlen] at hok ⊢
              cases hst : store id with
              | none => simp [hst] at hok
              | some doc =>
                simp only [hst] at hok ⊢
                refine ⟨fun k hk => by simp [if_neg hk], doc, s, rfl, rfl, ?_⟩
                simp
        | missing => simp [hbody] at hok
        | nonString => simp [hbody] at hok
      · simp [hrl] at hok
  · intro habsent
    have hnotok : ∀ rid, (PUT id body now rl store).1 ≠ .ok rid := by
      intro rid hok
      by_cases hid : id = ""
      · simp [PUT, hid] at hok
      · simp only [PUT, if_neg hid] at hok
        by_cases hrl : (checkRateLimit id "update_document" UPDATE_DOCUMENT rl now).1.success
        · have hcond : ¬¬((checkRateLimit id "update_document" UPDATE_DOCUMENT rl now).1.success = true) := by
            simp [hrl]
          rw [if_neg hcond] at hok
          cases hbody : body.encryptedContent with
          | str s =>
            simp only [hbody] at hok
            by_cases hne : s = ""
            · simp [hne] at hok
            · simp only [if_neg hne] at hok
              by_cases hlen : s.length > 1024 * 1024 * 10
              · simp [hlen] at hok
              · simp [if_neg hlen, habsent] at hok
          | missing => simp [hbody] at hok
          | nonString => simp [hbody] at hok
        · simp [hrl] at hok
    refine ⟨hnotok, ?_, ?_⟩
    · by_cases hid : id = ""
      · simp [PUT, hid]
      · simp only [PUT, if_neg hid]
        by_cases hrl : (checkRateLimit id "update_document" UPDATE_DOCUMENT rl now).1.success
        · have hcond : ¬¬((checkRateLimit id "update_document" UPDATE_DOCUMENT rl now).1.success = true) := by
            simp [hrl]
          rw [if_neg hcond]
          cases hbody : body.encryptedContent with
          | str s =>
            by_cases hne : s = ""
            · simp [hne]
            · by_cases hlen : s.length > 1024 * 1024 * 10
              · simp [if_neg hne, hlen]
              · simp [if_neg hne, if_neg hlen, habsent]
          | missing => simp
          | nonString => simp
        · simp [hrl]
    · intro hid hrl s hbody hne hlen
      simp [PUT, if_neg hid, hrl, hbody, if_neg hne,
        if_neg (by omega : ¬ s.length > 1024 * 1024 * 10), habsent]

/-- Witness for C9: updating `d1` rewrites its content, keeps its hash and
timestamp, and leaves `d2` alone; updating the absent `d3` is a 404 that
leaves the store as it was. -/
theorem c9_update_frame_witness :
    ((PUT "d1" { encryptedContent := .str "new", writeToken := none } 50 (fun _ => none)
      (fun k => if k = "d1" then
        some { id := "d1", encryptedContent := "old", writeTokenHash := some "h", createdAt := 3 }
      else if k = "d2" then
        some { id := "d2", encryptedContent := "c2", writeTokenHash := none, createdAt := 4 }
      else none)).2.2 "d2"
      = some { id := "d2", encryptedContent := "c2", writeTokenHash := none, createdAt := 4 }) ∧
    (PUT "d3" { encryptedContent := .str "new", writeToken := none } 50 (fun _ => none)
      (fun _ => none)).1 = .notFound := by
  constructor
  · exact (((c9_update_frame "d1" { encryptedContent := .str "new", writeToken := none } 50
      (fun _ => none) _).1 "d1" (by rfl)).1 "d2" (by decide))
  · exact ((c9_update_frame "d3" { encryptedContent := .str "new", writeToken := none } 50
      (fun _ => none) (fun _ => none)).2 rfl).2.2 (by decide) rfl "new" rfl (by decide) (by decide)

/-- `uspGet "write"` finds nothing in a bare key segment. -/
theorem uspGet_write_key (key : String)
    (hkey : ∀ c ∈ key.data, c ≠ '#' ∧ c ≠ '&' ∧ c ≠ '=' ∧ c ≠ '%' ∧ c ≠ '+')
    (hkw : key ≠ "write") :
    uspGet "write".data key.data = none := by
  have hamp : '&' ∉ key.data := fun hm => (hkey _ hm).2.1 rfl
  have heq : '=' ∉ key.data := fun hm => (hkey _ hm).2.2.1 rfl
  have hpc : '%' ∉ key.data := fun hm => (hkey _ hm).2.2.2.1 rfl
  have hpl : '+' ∉ key.data := fun hm => (hkey _ hm).2.2.2.2 rfl
  unfold uspGet
  rw [jsSplitChar_no_sep _ _ hamp]
  by_cases hke : key.data = []
  · simp [hke]
  · have hkd : key.data ≠ "write".data := fun hd => hkw (String.ext hd)
    simp [hke, List.findSome?, jsParamPair_no_eq _ heq, percentDecode_id _ hpc hpl, hkd]

/-- C5 counterexample: a fragment with an empty (missing) identifier is
not rejected — `loadFromUrl` accepts `"#abc"` and yields the empty
document id, where the claim requires a malformed-capability error. -/
theorem c5_missing_identifier_accepted :
    decodeFragment "#abc" = some ("", "abc", none) := by decide

/-- C5 as amended: decoding rejects a fragment exactly when it contains
no `#` at all (an empty identifier or key is not rejected); splitting is
on every `#` with the id the segment before the first one and the key
parsed from the segment between the first and second; and decoding a
fragment produced by encoding recovers exactly the encoded triple, for
identifiers without `#`, keys over a fragment-safe alphabet other than
the literal name `write`, and non-empty fragment-safe tokens. -/
theorem c5_fragment_codec :
    (∀ h : String, decodeFragment h = none ↔ '#' ∉ h.data) ∧
    (∀ id key : String,
      '#' ∉ id.data →
      (∀ c ∈ key.data, c ≠ '#' ∧ c ≠ '&' ∧ c ≠ '=' ∧ c ≠ '%' ∧ c ≠ '+') →
      key ≠ "write" →
      decodeFragment (encodeFragment id key none) = some (id, key, none)) ∧
    (∀ id key t : String,
      '#' ∉ id.data →
      (∀ c ∈ key.data, c ≠ '#' ∧ c ≠ '&' ∧ c ≠ '=' ∧ c ≠ '%' ∧ c ≠ '+') →
      key ≠ "write" →
      t ≠ "" →
      (∀ c ∈ t.data, c ≠ '#' ∧ c ≠ '&' ∧ c ≠ '%' ∧ c ≠ '+') →
      decodeFragment (encodeFragment id key (some t)) = some (id, key, some t)) := by
  refine ⟨?_, ?_, ?_⟩
  · intro h
    constructor
    · intro hnone
      cases hsp : jsSplitChar '#' h.data with
      | nil => exact absurd hsp (jsSplitChar_ne_nil _ _)
      | cons p0 tail =>
        cases tail with
        | nil => exact (jsSplitChar_length_eq_one '#' h.data).mp (by rw [hsp]; rfl)
        | cons p1 rest => simp [decodeFragment, hsp] at hnone
    · intro hno
      simp [decodeFragment, jsSplitChar_no_sep '#' h.data hno]
  · intro id key hid hkey hkw
    have hkeyHash : '#' ∉ key.data := fun hm => (hkey _ hm).1 rfl
    have hdata : (encodeFragment id key none).data = id.data ++ '#' :: key.data := by
      simp [encodeFragment, String.data_append]
    have hsp : jsSplitChar '#' (encodeFragment id key none).data = [id.data, key.data] := by
      rw [hdata, jsSplitChar_append_sep _ _ _ hid, jsSplitChar_no_sep _ _ hkeyHash]
    simp [decodeFragment, hsp, uspGet_write_key key hkey hkw, jsTruthy]
  · intro id key t hid hkey hkw htne ht
    have hkeyHash : '#' ∉ key.data := fun hm => (hkey _ hm).1 rfl
    have hkeyAmp : '&' ∉ key.data := fun hm => (hkey _ hm).2.1 rfl
    have hkeyEq : '=' ∉ key.data := fun hm => (hkey _ hm).2.2.1 rfl
    have hkeyPc : '%' ∉ key.data := fun hm => (hkey _ hm).2.2.2.1 rfl
    have hkeyPl : '+' ∉ key.data := fun hm => (hkey _ hm).2.2.2.2 rfl
    have htHash : '#' ∉ t.data := fun hm => (ht _ hm).1 rfl
    have htAmp : '&' ∉ t.data := fun hm => (ht _ hm).2.1 rfl
    have htPc : '%' ∉ t.data := fun hm => (ht _ hm).2.2.1 rfl
    have htPl : '+' ∉ t.data := fun hm => (ht _ hm).2.2.2 rfl
    have hdata : (encodeFragment id key (some t)).data
        = id.data ++ '#' :: (key.data ++ '&' :: ("write".data ++ '=' :: t.data)) := by
      simp [encodeFragment, String.data_append]
    have hsegHash : '#' ∉ key.data ++ '&' :: ("write".data ++ '=' :: t.data) := by
      intro hm
      rcases List.mem_append.mp hm with hm | hm
      · exact hkeyHash hm
      · rcases List.mem_cons.mp hm with hm | hm
        · exact absurd hm.symm (by decide)
        · rcases List.mem_append.mp hm with hm | hm
          · revert hm; decide
          · rcases List.mem_cons.mp hm with hm | hm
            · exact absurd hm.symm (by decide)
            · exact htHash hm
    have hsp : jsSplitChar '#' (encodeFragment id key (some t)).data
        = [id.data, key.data ++ '&' :: ("write".data ++ '=' :: t.data)] := by
      rw [hdata, jsSplitChar_append_sep _ _ _ hid, jsSplitChar_no_sep _ _ hsegHash]
    have hsegAmp : '&' ∉ "write".data ++ '=' :: t.data := by
      intro hm
      rcases List.mem_append.mp hm with hm | hm
      · revert hm; decide
      · rcases List.mem_cons.mp hm with hm | hm
        · exact absurd hm.symm (by decide)
        · exact htAmp hm
    have hspamp : jsSplitChar '&' (key.data ++ '&' :: ("write".data ++ '=' :: t.data))
        = [key.data, "write".data ++ '=' :: t.data] := by
      rw [jsSplitChar_append_sep _ _ _ hkeyAmp, jsSplitChar_no_sep _ _ hsegAmp]
    have hpair : jsParamPair ('w' :: 'r' :: 'i' :: 't' :: 'e' :: '=' :: t.data)
        = (['w', 'r', 'i', 't', 'e'], t.data) := by
      have h0 := jsParamPair_append ['w', 'r', 'i', 't', 'e'] t.data (by decide)
      simpa using h0
    have hpw : percentDecode ['w', 'r', 'i', 't', 'e'] = ['w', 'r', 'i', 't', 'e'] :=
      percentDecode_id _ (by decide) (by decide)
    have hw : uspGet "write".data (key.data ++ '&' :: ("write".data ++ '=' :: t.data))
        = some t.data := by
      unfold uspGet
      rw [hspamp]
      by_cases hke : key.data = []
      · simp [hke, List.findSome?, hpair, hpw, percentDecode_id _ htPc htPl]
      · have hkd : key.data ≠ "write".data := fun hd => hkw (String.ext hd)
        simp [hke, List.findSome?, jsParamPair_no_eq _ hkeyEq,
          percentDecode_id _ hkeyPc hkeyPl, hkd, hpair, hpw,
          percentDecode_id _ htPc htPl]
    have htl : jsTruthy (some t.data) = true := by
      cases hts : t.data with
      | nil => exact absurd (String.ext hts) htne
      | cons a r => rfl
    have hw' : uspGet ['w', 'r', 'i', 't', 'e']
        (key.data ++ '&' :: 'w' :: 'r' :: 'i' :: 't' :: 'e' :: '=' :: t.data) = some t.data := by
      simpa using hw
    have hspamp' : jsSplitChar '&'
          (key.data ++ '&' :: 'w' :: 'r' :: 'i' :: 't' :: 'e' :: '=' :: t.data)
        = [key.data, 'w' :: 'r' :: 'i' :: 't' :: 'e' :: '=' :: t.data] := by
      simpa using hspamp
    have heta0 : String.mk id.data = id := rfl
    have heta1 : String.mk key.data = key := rfl
    have heta2 : String.mk t.data = t := rfl
    simp [decodeFragment, hsp, hw', htl, hspamp', heta0, heta1, heta2]

/-- Witness for C5: a concrete capability round-trips through the codec
in both the read-only and the read-write form. -/
theorem c5_fragment_codec_witness :
    decodeFragment (encodeFragment "doc1" "keyA" none) = some ("doc1", "keyA", none) ∧
    decodeFragment (encodeFragment "doc1" "keyA" (some "tok9"))
      = some ("doc1", "keyA", some "tok9") := by
  constructor
  · exact c5_fragment_codec.2.1 "doc1" "keyA" (by decide) (by decide) (by decide)
  · exact c5_fragment_codec.2.2 "doc1" "keyA" "tok9" (by decide) (by decide) (by decide)
      (by decide) (by decide)

/-! ## Base64 round-trip lemmas -/

/-- Base64 digits are never padding or URL-safe replacement characters. -/
theorem b64Char_ne (n : Nat) : b64Char n ≠ '=' ∧ b64Char n ≠ '-' ∧ b64Char n ≠ '_' := by
  rcases Nat.lt_or_ge n 64 with h | h
  · have H : ∀ m, m < 64 → b64Char m ≠ '=' ∧ b64Char m ≠ '-' ∧ b64Char m ≠ '_' := by decide
    exact H n h
  · have hA : b64Char n = 'A' := by
      unfold b64Char
      exact List.getD_eq_default _ _ (le_trans (by decide) h)
    rw [hA]
    decide

/-- Every base64 digit has an index in the alphabet. -/
theorem b64Index_isSome (n : Nat) : (b64Index (b64Char n)).isSome := by
  rcases Nat.lt_or_ge n 64 with h | h
  · have H : ∀ m, m < 64 → (b64Index (b64Char m)).isSome := by decide
    exact H n h
  · have hA : b64Char n = 'A' := by
      unfold b64Char
      exact List.getD_eq_default _ _ (le_trans (by decide) h)
    rw [hA]
    decide

/-- Indexing inverts the digit map on 6-bit values. -/
theorem b64Index_b64Char (n : Nat) (h : n < 64) : b64Index (b64Char n) = some n := by
  have H : ∀ m, m < 64 → b64Index (b64Char m) = some m := by decide
  exact H n h

/-- `toUrlSafe` keeps every non-padding character, as its URL-safe image. -/
theorem toUrlSafe_eq (c : Char) (h : c ≠ '=') : toUrlSafe c = some (urlOf c) := by
  unfold toUrlSafe urlOf
  by_cases hp : c = '+'
  · simp [hp]
  · by_cases hs : c = '/'
    · simp [hp, hs]
    · simp [hp, hs, h]

/-- `fromUrlSafe` inverts `urlOf` away from the replacement characters. -/
theorem fromUrlSafe_urlOf (c : Char) (h2 : c ≠ '-') (h3 : c ≠ '_') :
    fromUrlSafe (urlOf c) = c := by
  unfold fromUrlSafe urlOf
  by_cases hp : c = '+'
  · simp [hp]
  · by_cases hs : c = '/'
    · simp [hp, hs]
    · simp [hp, hs, h2, h3]

/-- Un-replacing the URL-safe characters of stripped `btoa` output
recovers the unpadded digit stream. -/
theorem encode_strip (bytes : List Nat) :
    ((b64EncodeBytes bytes).filterMap toUrlSafe).map fromUrlSafe = b64NoPad bytes := by
  induction bytes using b64EncodeBytes.induct with
  | case1 => rfl
  | case2 b1 =>
    have s1 := b64Char_ne (b1 / 4)
    have s2 := b64Char_ne (b1 % 4 * 16)
    simp [b64EncodeBytes, b64NoPad, List.filterMap_cons,
      toUrlSafe_eq _ s1.1, toUrlSafe_eq _ s2.1,
      fromUrlSafe_urlOf _ s1.2.1 s1.2.2, fromUrlSafe_urlOf _ s2.2.1 s2.2.2]
    rfl
  | case3 b1 b2 =>
    have s1 := b64Char_ne (b1 / 4)
    have s2 := b64Char_ne (b1 % 4 * 16 + b2 / 16)
    have s3 := b64Char_ne (b2 % 16 * 4)
    simp [b64EncodeBytes, b64NoPad, List.filterMap_cons,
      toUrlSafe_eq _ s1.1, toUrlSafe_eq _ s2.1, toUrlSafe_eq _ s3.1,
      fromUrlSafe_urlOf _ s1.2.1 s1.2.2, fromUrlSafe_urlOf _ s2.2.1 s2.2.2,
      fromUrlSafe_urlOf _ s3.2.1 s3.2.2]
    rfl
  | case4 b1 b2 b3 rest ih =>
    have s1 := b64Char_ne (b1 / 4)
    have s2 := b64Char_ne (b1 % 4 * 16 + b2 / 16)
    have s3 := b64Char_ne (b2 % 16 * 4 + b3 / 64)
    have s4 := b64Char_ne (b3 % 64)
    simp [b64EncodeBytes, b64NoPad, List.filterMap_cons,
      toUrlSafe_eq _ s1.1, toUrlSafe_eq _ s2.1, toUrlSafe_eq _ s3.1, toUrlSafe_eq _ s4.1,
      fromUrlSafe_urlOf _ s1.2.1 s1.2.2, fromUrlSafe_urlOf _ s2.2.1 s2.2.2,
      fromUrlSafe_urlOf _ s3.2.1 s3.2.2, fromUrlSafe_urlOf _ s4.2.1 s4.2.2, ih]

/-- The unpadded digit stream contains no padding character. -/
theorem b64NoPad_no_pad (bytes : List Nat) : '=' ∉ b64NoPad bytes := by
  induction bytes using b64NoPad.induct with
  | case1 => simp [b64NoPad]
  | case2 b1 =>
    simp [b64NoPad, (b64Char_ne (b1 / 4)).1.symm, (b64Char_ne (b1 % 4 * 16)).1.symm]
  | case3 b1 b2 =>
    simp [b64NoPad, (b64Char_ne (b1 / 4)).1.symm, (b64Char_ne (b1 % 4 * 16 + b2 / 16)).1.symm,
      (b64Char_ne (b2 % 16 * 4)).1.symm]
  | case4 b1 b2 b3 rest ih =>
    simp [b64NoPad, (b64Char_ne (b1 / 4)).1.symm, (b64Char_ne (b1 % 4 * 16 + b2 / 16)).1.symm,
      (b64Char_ne (b2 % 16 * 4 + b3 / 64)).1.symm, (b64Char_ne (b3 % 64)).1.symm, ih]

/-- Every character of the unpadded digit stream is a base64 digit. -/
theorem b64NoPad_all_some (bytes : List Nat) :
    ∀ c ∈ b64NoPad bytes, (b64Index c).isSome := by
  induction bytes using b64NoPad.induct with
  | case1 => simp [b64NoPad]
  | case2 b1 =>
    simp only [b64NoPad, List.mem_cons, List.not_mem_nil, or_false]
    rintro c (rfl | rfl) <;> exact b64Index_isSome _
  | case3 b1 b2 =>
    simp only [b64NoPad, List.mem_cons, List.not_mem_nil, or_false]
    rintro c (rfl | rfl | rfl) <;> exact b64Index_isSome _
  | case4 b1 b2 b3 rest ih =>
    simp only [b64NoPad, List.mem_cons]
    rintro c (rfl | rfl | rfl | rfl | hm)
    · exact b64Index_isSome _
    · exact b64Index_isSome _
    · exact b64Index_isSome _
    · exact b64Index_isSome _
    · exact ih c hm

/-- The unpadded digit stream is never of length `1 mod 4`. -/
theorem b64NoPad_length_mod (bytes : List Nat) : (b64NoPad bytes).length % 4 ≠ 1 := by
  induction bytes using b64NoPad.induct with
  | case1 => simp [b64NoPad]
  | case2 b1 => simp [b64NoPad]
  | case3 b1 b2 => simp [b64NoPad]
  | case4 b1 b2 b3 rest ih =>
    simp only [b64NoPad, List.length_cons]
    omega

/-- Re-padding commutes with a whole leading digit quartet. -/
theorem padChars_cons4 (a b c d : Char) (l : List Char) :
    padChars (a :: b :: c :: d :: l) = a :: b :: c :: d :: padChars l := by
  have hcnt : (4 - (a :: b :: c :: d :: l).length % 4) % 4 = (4 - l.length % 4) % 4 := by
    simp only [List.length_cons]
    omega
  simp only [padChars, hcnt, List.cons_append]

/-- Re-padding yields a length divisible by four. -/
theorem padChars_mod (l : List Char) : (padChars l).length % 4 = 0 := by
  simp only [padChars, List.length_append, List.length_replicate]
  omega

/-- Stripping is the identity on pad-free input. -/
theorem stripPad_no_pad (l : List Char) (h : '=' ∉ l) : stripPad l = l := by
  unfold stripPad
  split
  · rename_i r heq
    exact absurd (List.mem_reverse.mp (heq ▸ List.mem_cons_self _ _)) h
  · rename_i r heq
    exact absurd (List.mem_reverse.mp (heq ▸ List.mem_cons_self _ _)) h
  · rfl

/-- Stripping inverts re-padding on digit streams of valid length. -/
theorem stripPad_padChars (l : List Char) (hne : '=' ∉ l) (hmod : l.length % 4 ≠ 1) :
    stripPad (padChars l) = l := by
  have hr : l.length % 4 = 0 ∨ l.length % 4 = 2 ∨ l.length % 4 = 3 := by omega
  rcases hr with hr | hr | hr
  · have hp : padChars l = l := by
      simp [padChars, hr]
    rw [hp, stripPad_no_pad l hne]
  · have hp : padChars l = l ++ ['=', '='] := by
      simp [padChars, hr]
    rw [hp]
    unfold stripPad
    rw [List.reverse_append]
    simp
  · have hp : padChars l = l ++ ['='] := by
      simp [padChars, hr]
    rw [hp]
    cases hrev : l.reverse with
    | nil =>
      exfalso
      have hl : l = [] := by simpa using congrArg List.reverse hrev
      rw [hl] at hr
      simp at hr
    | cons c rest =>
      have hc : c ≠ '=' := by
        intro he
        refine hne (List.mem_reverse.mp ?_)
        rw [hrev]
        exact he ▸ List.mem_cons_self c rest
      have hl : l = (c :: rest).reverse := by
        rw [← hrev, List.reverse_reverse]
      rw [hl]
      unfold stripPad
      rw [List.reverse_append, List.reverse_reverse]
      simp only [List.reverse_cons, List.reverse_nil, List.nil_append, List.singleton_append]
      split
      · rename_i r heq
        simp only [List.cons.injEq] at heq
        exact absurd heq.2.1 hc
      · rename_i r heq
        simp only [List.cons.injEq] at heq
        rw [← heq.2]
        exact List.reverse_cons c rest
      · rename_i hno1 hno2
        exact ((hno2 (c :: rest) rfl).elim)

/-- Decoding the digit quartets of the unpadded stream recovers the
original bytes. -/
theorem b64DecodeQuads_noPad (bytes : List Nat) (h : ∀ b ∈ bytes, b < 256) :
    b64DecodeQuads ((b64NoPad bytes).map fun c => (b64Index c).getD 0) = bytes := by
  induction bytes using b64NoPad.induct with
  | case1 => rfl
  | case2 b1 =>
    have hb1 : b1 < 256 := h b1 (List.mem_cons_self _ _)
    have e1 := b64Index_b64Char (b1 / 4) (by omega)
    have e2 := b64Index_b64Char (b1 % 4 * 16) (by omega)
    simp only [b64NoPad, List.map_cons, List.map_nil, e1, e2, Option.getD_some]
    simp only [b64DecodeQuads, List.cons.injEq, and_true]
    omega
  | case3 b1 b2 =>
    have hb1 : b1 < 256 := h b1 (List.mem_cons_self _ _)
    have hb2 : b2 < 256 := h b2 (List.mem_cons_of_mem _ (List.mem_cons_self _ _))
    have e1 := b64Index_b64Char (b1 / 4) (by omega)
    have e2 := b64Index_b64Char (b1 % 4 * 16 + b2 / 16) (by omega)
    have e3 := b64Index_b64Char (b2 % 16 * 4) (by omega)
    simp only [b64NoPad, List.map_cons, List.map_nil, e1, e2, e3, Option.getD_some]
    simp only [b64DecodeQuads, List.cons.injEq, and_true]
    constructor
    · omega
    · omega
  | case4 b1 b2 b3 rest ih =>
    have hb1 : b1 < 256 := h b1 (List.mem_cons_self _ _)
    have hb2 : b2 < 256 := h b2 (List.mem_cons_of_mem _ (List.mem_cons_self _ _))
    have hb3 : b3 < 256 := h b3
      (List.mem_cons_of_mem _ (List.mem_cons_of_mem _ (List.mem_cons_self _ _)))
    have hrest : ∀ b ∈ rest, b < 256 := fun b hb => h b
      (List.mem_cons_of_mem _ (List.mem_cons_of_mem _ (List.mem_cons_of_mem _ hb)))
    have e1 := b64Index_b64Char (b1 / 4) (by omega)
    have e2 := b64Index_b64Char (b1 % 4 * 16 + b2 / 16) (by omega)
    have e3 := b64Index_b64Char (b2 % 16 * 4 + b3 / 64) (by omega)
    have e4 := b64Index_b64Char (b3 % 64) (by omega)
    simp only [b64NoPad, List.map_cons, e1, e2, e3, e4, Option.getD_some]
    simp only [b64DecodeQuads, List.cons.injEq]
    refine ⟨by omega, by omega, by omega, ih hrest⟩

/-- `atob` undoes the re-padded unpadded digit stream. -/
theorem jsAtob_padChars (np : List Char) (hne : '=' ∉ np) (hmod : np.length % 4 ≠ 1)
    (hall : ∀ c ∈ np, (b64Index c).isSome) :
    jsAtob (padChars np) = some (b64DecodeQuads (np.map fun c => (b64Index c).getD 0)) := by
  unfold jsAtob
  rw [if_pos (padChars_mod np), stripPad_padChars np hne hmod, if_neg hmod,
    if_pos (List.all_eq_true.mpr fun c hc => hall c hc)]

/-- `base64ToArrayBuffer` inverts `arrayBufferToBase64` on byte input. -/
theorem base64_roundtrip (bytes : List Nat) (h : ∀ b ∈ bytes, b < 256) :
    base64ToArrayBuffer (arrayBufferToBase64 bytes) = some bytes := by
  unfold arrayBufferToBase64 base64ToArrayBuffer
  rw [show (String.mk ((b64EncodeBytes bytes).filterMap toUrlSafe)).data
      = (b64EncodeBytes bytes).filterMap toUrlSafe from rfl]
  rw [encode_strip bytes,
    jsAtob_padChars _ (b64NoPad_no_pad bytes) (b64NoPad_length_mod bytes)
      (b64NoPad_all_some bytes),
    b64DecodeQuads_noPad bytes h]

/-! ## UTF-8 round-trip lemmas -/

/-- The scalar-value bounds carried by every `Char`. -/
theorem char_valid_nat (c : Char) :
    c.toNat < 55296 ∨ (57344 ≤ c.toNat ∧ c.toNat < 1114112) := by
  have h := c.valid
  unfold UInt32.isValidChar at h
  unfold Nat.isValidChar at h
  exact h

/-- UTF-8 encoding emits bytes. -/
theorem utf8EncodeChar_lt (c : Char) : ∀ b ∈ utf8EncodeChar c, b < 256 := by
  have hv := char_valid_nat c
  unfold utf8EncodeChar
  by_cases h1 : c.toNat < 128
  · simp only [if_pos h1, List.mem_singleton]
    omega
  · by_cases h2 : c.toNat < 2048
    · simp only [if_neg h1, if_pos h2, List.mem_cons, List.not_mem_nil, or_false]
      rintro b (rfl | rfl) <;> omega
    · by_cases h3 : c.toNat < 65536
      · simp only [if_neg h1, if_neg h2, if_pos h3, List.mem_cons, List.not_mem_nil, or_false]
        rintro b (rfl | rfl | rfl) <;> omega
      · simp only [if_neg h1, if_neg h2, if_neg h3, List.mem_cons, List.not_mem_nil, or_false]
        rintro b (rfl | rfl | rfl | rfl) <;> omega

/-- The byte stream of a string is made of bytes. -/
theorem utf8Encode_lt (s : String) : ∀ b ∈ utf8Encode s, b < 256 := by
  intro b hb
  unfold utf8Encode at hb
  rcases List.mem_flatten.mp hb with ⟨l, hl, hbl⟩
  rcases List.mem_map.mp hl with ⟨c, _, rfl⟩
  exact utf8EncodeChar_lt c b hbl

/-- The decoder consumes exactly one encoded scalar value and continues. -/
theorem utf8DecodeState_encodeChar (c : Char) (rest : List Nat) :
    utf8DecodeState none (utf8EncodeChar c ++ rest)
      = (utf8DecodeState none rest).map (fun cs => c :: cs) := by
  have hv := char_valid_nat c
  by_cases h1 : c.toNat < 128
  · have he : utf8EncodeChar c = [c.toNat] := by simp [utf8EncodeChar, h1]
    rw [he, List.cons_append, List.nil_append]
    simp only [utf8DecodeState, if_pos h1, Char.ofNat_toNat]
  · by_cases h2 : c.toNat < 2048
    · have he : utf8EncodeChar c = [192 + c.toNat / 64, 128 + c.toNat % 64] := by
        simp [utf8EncodeChar, h1, h2]
      have k1 : ¬ (192 + c.toNat / 64 < 128) := by omega
      have k2 : ¬ (192 + c.toNat / 64 < 192) := by omega
      have k3 : 192 + c.toNat / 64 < 224 := by omega
      have k4 : 128 ≤ 128 + c.toNat % 64 ∧ 128 + c.toNat % 64 < 192 := by omega
      have k5 : (192 + c.toNat / 64 - 192) * 64 + (128 + c.toNat % 64 - 128) = c.toNat := by
        omega
      have k6 : ¬ (c.toNat < 128 ∨ (55296 ≤ c.toNat ∧ c.toNat < 57344) ∨
          1114112 ≤ c.toNat) := by omega
      rw [he, List.cons_append, List.cons_append, List.nil_append]
      simp only [utf8DecodeState, if_neg k1, if_neg k2, if_pos k3, if_pos k4, if_pos rfl, k5,
        if_neg k6, Char.ofNat_toNat, if_true]
    · by_cases h3 : c.toNat < 65536
      · have he : utf8EncodeChar c
            = [224 + c.toNat / 4096, 128 + c.toNat / 64 % 64, 128 + c.toNat % 64] := by
          simp [utf8EncodeChar, h1, h2, h3]
        have k1 : ¬ (224 + c.toNat / 4096 < 128) := by omega
        have k2 : ¬ (224 + c.toNat / 4096 < 192) := by omega
        have k3 : ¬ (224 + c.toNat / 4096 < 224) := by omega
        have k4 : 224 + c.toNat / 4096 < 240 := by omega
        have k5 : 128 ≤ 128 + c.toNat / 64 % 64 ∧ 128 + c.toNat / 64 % 64 < 192 := by omega
        have k6 : 128 ≤ 128 + c.toNat % 64 ∧ 128 + c.toNat % 64 < 192 := by omega
        have k7 : ¬ ((2 : Nat) = 1) := by omega
        have k8 : (224 + c.toNat / 4096 - 224) * 64 + (128 + c.toNat / 64 % 64 - 128)
            = c.toNat / 64 := by omega
        have k9 : c.toNat / 64 * 64 + (128 + c.toNat % 64 - 128) = c.toNat := by omega
        have k10 : ¬ (c.toNat < 2048 ∨ (55296 ≤ c.toNat ∧ c.toNat < 57344) ∨
            1114112 ≤ c.toNat) := by omega
        rw [he, List.cons_append, List.cons_append, List.cons_append, List.nil_append]
        simp only [utf8DecodeState, if_neg k1, if_neg k2, if_neg k3, if_pos k4, if_pos k5,
          if_neg k7, k8, if_pos k6, if_pos rfl, k9, if_neg k10, Char.ofNat_toNat, if_true]
      · have he : utf8EncodeChar c
            = [240 + c.toNat / 262144, 128 + c.toNat / 4096 % 64,
               128 + c.toNat / 64 % 64, 128 + c.toNat % 64] := by
          simp [utf8EncodeChar, h1, h2, h3]
        have k1 : ¬ (240 + c.toNat / 262144 < 128) := by omega
        have k2 : ¬ (240 + c.toNat / 262144 < 192) := by omega
        have k3 : ¬ (240 + c.toNat / 262144 < 224) := by omega
        have k4 : ¬ (240 + c.toNat / 262144 < 240) := by omega
        have k5 : 240 + c.toNat / 262144 < 248 := by omega
        have k6 : 128 ≤ 128 + c.toNat / 4096 % 64 ∧ 128 + c.toNat / 4096 % 64 < 192 := by
          omega
        have k7 : 128 ≤ 128 + c.toNat / 64 % 64 ∧ 128 + c.toNat / 64 % 64 < 192 := by omega
        have k8 : 128 ≤ 128 + c.toNat % 64 ∧ 128 + c.toNat % 64 < 192 := by omega
        have k9 : ¬ ((3 : Nat) = 1) := by omega
        have k10 : ¬ ((2 : Nat) = 1) := by omega
        have k11 : (240 + c.toNat / 262144 - 240) * 64 + (128 + c.toNat / 4096 % 64 - 128)
            = c.toNat / 4096 := by omega
        have k12 : c.toNat / 4096 * 64 + (128 + c.toNat / 64 % 64 - 128) = c.toNat / 64 := by
          omega
        have k13 : c.toNat / 64 * 64 + (128 + c.toNat % 64 - 128) = c.toNat := by omega
        have k14 : ¬ (c.toNat < 65536 ∨ (55296 ≤ c.toNat ∧ c.toNat < 57344) ∨
            1114112 ≤ c.toNat) := by omega
        rw [he, List.cons_append, List.cons_append, List.cons_append, List.cons_append,
          List.nil_append]
        simp only [utf8DecodeState, if_neg k1, if_neg k2, if_neg k3, if_neg k4, if_pos k5,
          if_pos k6, if_neg k9, k11, if_pos k7, if_neg k10, k12, if_pos k8, if_pos rfl, k13,
          if_neg k14, Char.ofNat_toNat, if_true]

/-- Decoding the concatenated encodings of a character list recovers the
list. -/
theorem utf8DecodeState_flatten (cs : List Char) :
    utf8DecodeState none ((cs.map utf8EncodeChar).flatten) = some cs := by
  induction cs with
  | nil => rfl
  | cons c rest ih =>
    rw [List.map_cons, List.flatten_cons, utf8DecodeState_encodeChar, ih]
    rfl

/-- `TextDecoder` inverts `TextEncoder`. -/
theorem utf8_roundtrip (s : String) : utf8Decode (utf8Encode s) = some s := by
  unfold utf8Decode utf8Encode
  rw [utf8DecodeState_flatten s.data]
  rfl

/-- C6: for every key and string, decrypting an encryption recovers the
plaintext.  `crypto.subtle`'s AES-GCM is an external primitive, passed in
as `sealFn`/`openFn` over an abstract key type with its AEAD correctness
at the used key and IV as a hypothesis; the wrapper's own work — UTF-8
encoding, prepending the fresh 12-byte IV, URL-safe unpadded base64, and
on the way back splitting the fixed-length IV prefix — is what is proved
to invert. -/
theorem c6_decrypt_encrypt_roundtrip {K : Type}
    (sealFn : K → List Nat → List Nat → List Nat)
    (openFn : K → List Nat → List Nat → Option (List Nat))
    (key : K) (iv : List Nat) (s : String)
    (hlen : iv.length = IV_LENGTH)
    (hiv : ∀ b ∈ iv, b < 256)
    (hct : ∀ b ∈ sealFn key iv (utf8Encode s), b < 256)
    (hopen : openFn key iv (sealFn key iv (utf8Encode s)) = some (utf8Encode s)) :
    decrypt openFn key (encrypt sealFn key iv s) = some s := by
  have hbytes : ∀ b ∈ iv ++ sealFn key iv (utf8Encode s), b < 256 := by
    intro b hb
    rcases List.mem_append.mp hb with h | h
    · exact hiv b h
    · exact hct b h
  have h1 : base64ToArrayBuffer (encrypt sealFn key iv s)
      = some (iv ++ sealFn key iv (utf8Encode s)) := by
    unfold encrypt
    exact base64_roundtrip _ hbytes
  have htake : (iv ++ sealFn key iv (utf8Encode s)).take IV_LENGTH = iv := by
    rw [← hlen]
    exact List.take_left iv _
  have hdrop : (iv ++ sealFn key iv (utf8Encode s)).drop IV_LENGTH
      = sealFn key iv (utf8Encode s) := by
    rw [← hlen]
    exact List.drop_left iv _
  simp only [decrypt, h1, htake, hdrop, hopen, utf8_roundtrip s]

/-- Witness for C6: the identity AEAD (which satisfies the correctness
hypothesis at any point) round-trips `"# Hello"` through the wrappers. -/
theorem c6_decrypt_encrypt_roundtrip_witness :
    decrypt (K := Unit) (fun _ _ ct => some ct) ()
      (encrypt (fun _ _ m => m) () (List.replicate 12 0) "# Hello") = some "# Hello" := by
  exact c6_decrypt_encrypt_roundtrip (fun _ _ m => m) (fun _ _ ct => some ct) ()
    (List.replicate 12 0) "# Hello" (by decide) (by decide) (by decide) rfl

/-- C7: two encryptions of the same plaintext under the same key differ
whenever their randomly drawn IVs differ: the IV is a prefix of the
encoded blob and the base64url encoding is injective on byte input, so
distinct IVs force distinct output strings. -/
theorem c7_encrypt_distinct_iv {K : Type}
    (sealFn : K → List Nat → List Nat → List Nat)
    (key : K) (iv1 iv2 : List Nat) (s : String)
    (hlen1 : iv1.length = IV_LENGTH) (hlen2 : iv2.length = IV_LENGTH)
    (hiv1 : ∀ b ∈ iv1, b < 256) (hiv2 : ∀ b ∈ iv2, b < 256)
    (hct1 : ∀ b ∈ sealFn key iv1 (utf8Encode s), b < 256)
    (hct2 : ∀ b ∈ sealFn key iv2 (utf8Encode s), b < 256)
    (hne : iv1 ≠ iv2) :
    encrypt sealFn key iv1 s ≠ encrypt sealFn key iv2 s := by
  intro heq
  have hb1 : ∀ b ∈ iv1 ++ sealFn key iv1 (utf8Encode s), b < 256 := by
    intro b hb
    rcases List.mem_append.mp hb with h | h
    · exact hiv1 b h
    · exact hct1 b h
  have hb2 : ∀ b ∈ iv2 ++ sealFn key iv2 (utf8Encode s), b < 256 := by
    intro b hb
    rcases List.mem_append.mp hb with h | h
    · exact hiv2 b h
    · exact hct2 b h
  have h1 : base64ToArrayBuffer (encrypt sealFn key iv1 s)
      = some (iv1 ++ sealFn key iv1 (utf8Encode s)) := by
    unfold encrypt
    exact base64_roundtrip _ hb1
  have h2 : base64ToArrayBuffer (encrypt sealFn key iv2 s)
      = some (iv2 ++ sealFn key iv2 (utf8Encode s)) := by
    unfold encrypt
    exact base64_roundtrip _ hb2
  rw [heq, h2] at h1
  have hl : iv2 ++ sealFn key iv2 (utf8Encode s) = iv1 ++ sealFn key iv1 (utf8Encode s) :=
    Option.some.inj h1
  have hlen12 : iv2.length = iv1.length := by rw [hlen2, hlen1]
  have hivs : iv2 = iv1 := by
    have hp := congrArg (List.take IV_LENGTH) hl
    rw [← hlen2, List.take_left, hlen12, List.take_left] at hp
    exact hp
  exact hne hivs.symm

/-- Witness for C7: under the identity AEAD, the all-zero IV and an IV
starting with 1 yield different ciphertext strings for `"hi"`. -/
theorem c7_encrypt_distinct_iv_witness :
    encrypt (K := Unit) (fun _ _ m => m) () (List.replicate 12 0) "hi"
      ≠ encrypt (fun _ _ m => m) () (1 :: List.replicate 11 0) "hi" := by
  exact c7_encrypt_distinct_iv (fun _ _ m => m) () (List.replicate 12 0)
    (1 :: List.replicate 11 0) "hi" (by decide) (by decide) (by decide) (by decide)
    (by decide) (by decide) (by decide)

/-- C8: `decrypt` yields a plaintext only when the authenticated open
succeeds on the decoded blob split at the 12-byte IV boundary: whenever
the input is not valid base64url, or AES-GCM (hypothesised authentic)
rejects the IV/ciphertext pair under the key — flipped byte, truncation,
or a different key — `decrypt` fails with no partial plaintext. -/
theorem c8_decrypt_rejects_unauthentic {K : Type}
    (openFn : K → List Nat → List Nat → Option (List Nat))
    (key : K) (input : String)
    (hreject : ∀ combined, base64ToArrayBuffer input = some combined →
      openFn key (combined.take IV_LENGTH) (combined.drop IV_LENGTH) = none) :
    decrypt openFn key input = none := by
  unfold decrypt
  cases hb : base64ToArrayBuffer input with
  | none => rfl
  | some combined => simp only [hreject combined hb]

/-- Witness for C8: an AEAD that rejects everything makes `decrypt`
return no plaintext on a well-formed base64 input. -/
theorem c8_decrypt_rejects_unauthentic_witness :
    decrypt (K := Unit) (fun _ _ _ => none) () "AAAA" = none :=
  c8_decrypt_rejects_unauthentic (fun _ _ _ => none) () "AAAA" (fun _ _ => rfl)

end MarkdownGG
